import Mathlib

/-!
Verification of the SAXS absolute-calibration core (saxsabs).

Shallow embedding of the numerical core of the repository:

* `saxsabs.core.normalization`  — `monitor_norm_formula`, `compute_norm_factor`
* `saxsabs.io.parsers`          — `norm_key`, `normalize_transmission`
* `saxsabs.core.preflight`      — `evaluate_preflight_gate`
* `saxsabs.core.execution_policy` — `RunPolicy`, `should_skip_all_existing`
* `saxsabs.core.buffer_subtraction` — `subtract_buffer`
* `saxsabs.core.calibration`    — `_regularize_profile`, `estimate_k_factor_robust`

Modelling conventions:

* Machine floating-point values are modelled by exact rationals.  A Python
  float argument that may be `None`, `NaN` or `±inf` is modelled by
  `Option PyFloat`, where `PyFloat.val x` is a finite value; `math.isfinite`
  holds exactly on `PyFloat.val`.  Profile arrays whose entries are finite
  (the only case the claims quantify over) are modelled as `List ℚ`; the
  `np.isfinite` masks of the source then keep every element.
* Python exceptions (`ValueError`) are modelled by `Except String`, carrying
  the message of the `raise` statement; `math.nan` results of total
  functions are modelled by `Option ℚ` with `none` for NaN.
* `numpy` reductions (`median`, `interp`, `min`, `max`, population variance)
  are embedded as exact rational list functions below.
* Square roots are not exactly representable in ℚ.  Wherever the source
  stores `sqrt(v)` we carry the radicand `v` (fields named `..._sq`), and a
  comparison `|m| < 3*max(sqrt v, 1e-30)` is carried as the equivalent
  (squares of both nonnegative sides) `m^2 < 9*max(v, 1e-60)`.
-/

/-- Decidable equality for `Except` results, so that concrete evaluations of
the embedded functions can be checked by `decide`. -/
instance instDecEqExcept {e a : Type _} [DecidableEq e] [DecidableEq a] :
    DecidableEq (Except e a)
  | Except.error e1, Except.error e2 =>
    if h : e1 = e2 then Decidable.isTrue (by rw [h])
    else Decidable.isFalse (fun hc => h (by injection hc))
  | Except.error _, Except.ok _ => Decidable.isFalse (fun hc => Except.noConfusion hc)
  | Except.ok _, Except.error _ => Decidable.isFalse (fun hc => Except.noConfusion hc)
  | Except.ok a1, Except.ok a2 =>
    if h : a1 = a2 then Decidable.isTrue (by rw [h])
    else Decidable.isFalse (fun hc => h (by injection hc))

/-- Finite/NaN/infinite classification of a Python float value, with finite
values carried exactly as rationals. -/
inductive PyFloat where
  | val (x : ℚ)
  | nan
  | inf
  | neginf
deriving Repr, DecidableEq

/-- ASCII whitespace test (the characters Python `str.strip` removes from
the header/mode strings that occur here). -/
def isPySpace (c : Char) : Bool :=
  c = ' ' || c = '\t' || c = '\n' || c = '\r' || c = '\x0b' || c = '\x0c'

/-- Python `str.strip()` on ASCII data: drop leading and trailing
whitespace. -/
def py_strip (s : String) : String :=
  String.mk (((s.toList.dropWhile isPySpace).reverse.dropWhile isPySpace).reverse)

/-- Python `str.lower()` on ASCII data: lower-case every character. -/
def py_lower (s : String) : String :=
  String.mk (s.toList.map Char.toLower)

/-- Embedding of `saxsabs.core.normalization.monitor_norm_formula`: returns a
human-readable formula string, raising `ValueError` for unknown modes. -/
def monitor_norm_formula (mode : String) : Except String String :=
  let mode_n := py_lower (py_strip mode)
  if mode_n = "rate" then Except.ok "exp * I0 * T"
  else if mode_n = "integrated" then Except.ok "I0 * T"
  else Except.error ("Unknown I0 normalization mode: " ++ mode)

/-- Embedding of `saxsabs.core.normalization.compute_norm_factor`.
`Except.ok none` models a `math.nan` return; `Except.error` models the
`ValueError` raised for unknown modes.  The `float(...)` coercions of the
source cannot fail on numeric inputs and are dropped; the
`math.isfinite` tests are the `PyFloat.val` pattern matches. -/
def compute_norm_factor (exp mon trans : Option PyFloat) (mode : String) :
    Except String (Option ℚ) :=
  match mon, trans with
  | none, _ => Except.ok none
  | _, none => Except.ok none
  | some m, some t =>
    match m, t with
    | PyFloat.val mv, PyFloat.val tv =>
      if mv ≤ 0 ∨ tv ≤ 0 then Except.ok none
      else
        let mode_n := py_lower (py_strip mode)
        if mode_n = "rate" then
          match exp with
          | none => Except.ok none
          | some (PyFloat.val ev) =>
              if ev ≤ 0 then Except.ok none
              else Except.ok (some (ev * mv * tv))
          | some _ => Except.ok none
        else if mode_n = "integrated" then Except.ok (some (mv * tv))
        else Except.error ("Unknown I0 normalization mode: " ++ mode)
    | _, _ => Except.ok none

/-- Embedding of the GUI twin `SASAbs.SAXSAbsoluteIntensityApp.compute_norm_factor`
(SASAbs.py line 1486): identical to the package function except that it
additionally maps transmission values above 1.0 to NaN (with a logged
warning) and does not normalize the mode string (its caller already does). -/
def SASAbs_compute_norm_factor (exp mon trans : Option PyFloat) (mode : String) :
    Except String (Option ℚ) :=
  match mon, trans with
  | none, _ => Except.ok none
  | _, none => Except.ok none
  | some m, some t =>
    match m, t with
    | PyFloat.val mv, PyFloat.val tv =>
      if mv ≤ 0 ∨ tv ≤ 0 then Except.ok none
      else if 1 < tv then Except.ok none
      else if mode = "rate" then
        match exp with
        | none => Except.ok none
        | some (PyFloat.val ev) =>
            if ev ≤ 0 then Except.ok none
            else Except.ok (some (ev * mv * tv))
        | some _ => Except.ok none
      else if mode = "integrated" then Except.ok (some (mv * tv))
      else Except.error ("未知 I0 归一化模式: " ++ mode)
    | _, _ => Except.ok none

/-- Embedding of `saxsabs.io.parsers.norm_key`: lower-case, strip outer
whitespace, remove spaces, dashes and underscores. -/
def norm_key (key : String) : String :=
  String.mk ((py_lower (py_strip key)).toList.filter
    (fun c => !(c = ' ' || c = '-' || c = '_')))

/-- Substring containment on character lists (Python `needle in hay`). -/
def containsSub (hay nee : List Char) : Bool :=
  match hay with
  | [] => nee.isEmpty
  | _ :: t => nee.isPrefixOf hay || containsSub t nee

/-- Substring containment on strings (Python `nee in hay`). -/
def strContains (hay nee : String) : Bool :=
  containsSub hay.toList nee.toList

/-- Percent-hint test of `normalize_transmission`: the raw text may carry any
of `%`, `percent`, `pct`; the matched key only `percent` or `pct`. -/
def has_pct_hint (raw_s key_s : String) : Bool :=
  strContains raw_s "%" || strContains raw_s "percent" || strContains raw_s "pct"
    || strContains key_s "percent" || strContains key_s "pct"

/-- Embedding of `saxsabs.io.parsers.normalize_transmission`: percent hints
force division by 100; otherwise bare values in (2, 100] are treated as
percent literals; everything else is returned unchanged. -/
def normalize_transmission (trans : Option ℚ) (raw : Option String)
    (key : Option String) : Option ℚ :=
  match trans with
  | none => none
  | some t =>
    let raw_s := match raw with | none => "" | some r => py_lower (py_strip r)
    let key_s := match key with | none => "" | some k => norm_key k
    if has_pct_hint raw_s key_s then some (t / 100)
    else if 2 < t ∧ t ≤ 100 then some (t / 100)
    else some t

/-- Embedding of `saxsabs.core.preflight.PreflightGateSummary` (the
`is_blocked` property is `level = "BLOCKED"`). -/
structure PreflightGateSummary where
  level : String
  score : ℤ
  total_files : ℤ
  failed_files : ℤ
  warning_count : ℤ
  risky_files : ℤ
deriving Repr, DecidableEq

/-- Embedding of `saxsabs.core.preflight.evaluate_preflight_gate`: inputs are
clamped to be nonnegative, scored 5/2/1 for failed/risky/warning, and mapped
to a BLOCKED/CAUTION/READY level.  Python `total // 2` on the clamped
(nonnegative) total agrees with `Int` division. -/
def evaluate_preflight_gate (total_files failed_files warning_count : ℤ)
    (risky_files : ℤ := 0) : PreflightGateSummary :=
  let total := max 0 total_files
  let failed := max 0 failed_files
  let warnings := max 0 warning_count
  let risky := max 0 risky_files
  let score := failed * 5 + risky * 2 + warnings
  let level :=
    if total ≤ 0 ∨ 0 < failed then "BLOCKED"
    else if 8 ≤ score ∨ 6 ≤ warnings ∨ max 2 (total / 2) ≤ risky then "CAUTION"
    else if 0 < score then "CAUTION"
    else "READY"
  { level := level, score := score, total_files := total, failed_files := failed,
    warning_count := warnings, risky_files := risky }

/-- Embedding of `saxsabs.core.execution_policy.RunPolicy`. -/
structure RunPolicy where
  resume_enabled : Bool := true
  overwrite_existing : Bool := false
deriving Repr, DecidableEq

/-- Embedding of the `RunPolicy.mode` property. -/
def RunPolicy.mode (p : RunPolicy) : String :=
  if p.overwrite_existing then "overwrite"
  else if p.resume_enabled then "resume-skip"
  else "always-run"

/-- Embedding of `RunPolicy.should_skip_existing`. -/
def RunPolicy.should_skip_existing (p : RunPolicy) (exists_flag : Bool) : Bool :=
  exists_flag && p.resume_enabled && !p.overwrite_existing

/-- Embedding of `saxsabs.core.execution_policy.should_skip_all_existing`:
false on an empty flag list, otherwise every flag must individually skip. -/
def should_skip_all_existing (existing_flags : List Bool) (policy : RunPolicy) : Bool :=
  if existing_flags.isEmpty then false
  else existing_flags.all (fun flag => policy.should_skip_existing flag)

/-- Mean of a rational list (`np.mean`; 0 on the empty list, where numpy
returns NaN: the sole use sites guard against emptiness). -/
def listMean (l : List ℚ) : ℚ := l.sum / (l.length : ℚ)

/-- Population variance of a rational list, i.e. the square of `np.std` /
`np.nanstd` (which use `ddof = 0`). -/
def listVar (l : List ℚ) : ℚ :=
  ((l.map (fun x => (x - listMean l) ^ 2)).sum) / (l.length : ℚ)

/-- Insert one rational into an ascending-sorted list. -/
def insortQ (x : ℚ) : List ℚ → List ℚ
  | [] => [x]
  | y :: ys => if x ≤ y then x :: y :: ys else y :: insortQ x ys

/-- Ascending sort of a rational list (insertion sort; numpy's sort agrees on
the values, and the value multiset is all `np.median` consumes). -/
def sortQ (l : List ℚ) : List ℚ := l.foldr insortQ []

/-- Embedding of `np.median` / `np.nanmedian` on finite data: middle element
of the sorted list, or the average of the two middle elements.  The empty
list yields 0 where numpy yields NaN; at the use sites both are rejected by
the same downstream `k_factor ≤ 0` / non-finite test. -/
def np_median (l : List ℚ) : ℚ :=
  let s := sortQ l
  let n := s.length
  if n = 0 then 0
  else if n % 2 = 1 then s.getD (n / 2) 0
  else (s.getD (n / 2 - 1) 0 + s.getD (n / 2) 0) / 2

/-- Embedding of `np.interp x xp fp` for increasing `xp`: clamp to the end
values outside the grid, linear interpolation inside. -/
def np_interp (x : ℚ) (xp fp : List ℚ) : ℚ :=
  match xp, fp with
  | x0 :: x1 :: xs, f0 :: f1 :: fs =>
    if x ≤ x0 then f0
    else if x ≤ x1 then f0 + (f1 - f0) * (x - x0) / (x1 - x0)
    else np_interp x (x1 :: xs) (f1 :: fs)
  | [_], f0 :: _ => f0
  | _, _ => 0

/-- Embedding of `np.nanmin` on finite data: raises on an empty array. -/
def nanmin : List ℚ → Except String ℚ
  | [] => Except.error "zero-size array to reduction operation fmin which has no identity"
  | x :: xs => Except.ok (xs.foldl min x)

/-- Embedding of `np.nanmax` on finite data: raises on an empty array. -/
def nanmax : List ℚ → Except String ℚ
  | [] => Except.error "zero-size array to reduction operation fmax which has no identity"
  | x :: xs => Except.ok (xs.foldl max x)

/-- Embedding of `np.allclose` on equal-length finite arrays, with numpy's
default tolerances `rtol = 1e-5`, `atol = 1e-8`. -/
def np_allclose (a b : List ℚ) : Bool :=
  (a.zip b).all (fun p => decide (|p.1 - p.2| ≤ 1 / 100000000 + (1 / 100000) * |p.2|))

/-- Embedding of `saxsabs.core.buffer_subtraction.BufferSubtractionResult`.
The source stores `err_subtracted = sqrt(err_sample² + α²·err_buffer²)`;
`err_subtracted_sq` carries the radicand exactly (see the header comment). -/
structure BufferSubtractionResult where
  q : List ℚ
  i_subtracted : List ℚ
  err_subtracted_sq : List ℚ
  alpha : ℚ
  high_q_residual_mean : ℚ := 0
  high_q_check_passed : Bool := true
deriving Repr, DecidableEq

/-- Embedding of `saxsabs.core.buffer_subtraction.subtract_buffer`.
`validate_alpha` only logs and is dropped.  Missing error arrays default to
zeros.  If the buffer q-grid differs in shape or values (up to `np.allclose`)
from the sample grid, buffer intensity and error are interpolated onto the
sample grid.  The high-q diagnostic `|mean| < 3*max(std, 1e-30)` is carried
on squares as `mean² < 9*max(var, 1e-60)` (both sides of the source
comparison are nonnegative, so squaring is faithful). -/
def subtract_buffer (q_sample i_sample : List ℚ) (err_sample : Option (List ℚ))
    (q_buffer i_buffer : List ℚ) (err_buffer : Option (List ℚ))
    (alpha : ℚ := 1) (high_q_diag : ℚ × ℚ := (15/100, 25/100)) :
    BufferSubtractionResult :=
  let q_s := q_sample
  let i_s := i_sample
  let e_s := err_sample.getD (List.replicate i_s.length 0)
  let q_b := q_buffer
  let e_b0 := err_buffer.getD (List.replicate i_buffer.length 0)
  let bufs :=
    if q_s.length ≠ q_b.length ∨ ¬ (np_allclose q_s q_b = true) then
      (q_s.map (fun x => np_interp x q_b i_buffer),
       q_s.map (fun x => np_interp x q_b e_b0))
    else (i_buffer, e_b0)
  let i_sub := (i_s.zip bufs.1).map (fun p => p.1 - alpha * p.2)
  let err_sub_sq := (e_s.zip bufs.2).map (fun p => p.1 ^ 2 + (alpha * p.2) ^ 2)
  let sel := ((q_s.zip i_sub).filter
      (fun p => decide (high_q_diag.1 ≤ p.1 ∧ p.1 ≤ high_q_diag.2))).map Prod.snd
  if 3 ≤ sel.length then
    { q := q_s, i_subtracted := i_sub, err_subtracted_sq := err_sub_sq,
      alpha := alpha, high_q_residual_mean := listMean sel,
      high_q_check_passed :=
        decide ((listMean sel) ^ 2 < 9 * max (listVar sel) (1 / 10 ^ 60)) }
  else
    { q := q_s, i_subtracted := i_sub, err_subtracted_sq := err_sub_sq,
      alpha := alpha, high_q_residual_mean := 0, high_q_check_passed := true }

/-- Embedding of `saxsabs.constants.NIST_SRM3600_DATA` (15-point glassy
carbon reference curve), with the decimal table entries read as exact
rationals. -/
def NIST_SRM3600_DATA : List (ℚ × ℚ) :=
  [(0.008, 35.0), (0.010, 34.2), (0.020, 30.8), (0.030, 28.8), (0.040, 27.5),
   (0.050, 26.8), (0.060, 26.3), (0.080, 25.4), (0.100, 23.6), (0.120, 20.8),
   (0.150, 15.8), (0.180, 10.9), (0.200, 8.4), (0.220, 6.5), (0.250, 4.2)]

/-- Insert a (q, intensity) pair into a list sorted ascending by q. -/
def insortP (p : ℚ × ℚ) : List (ℚ × ℚ) → List (ℚ × ℚ)
  | [] => [p]
  | r :: rs => if p.1 ≤ r.1 then p :: r :: rs else r :: insortP p rs

/-- Sort (q, intensity) pairs ascending by q (the `np.argsort` reindexing of
the source; ties are later merged by averaging, so tie order is
irrelevant). -/
def sortPairs (l : List (ℚ × ℚ)) : List (ℚ × ℚ) := l.foldr insortP []

/-- Close a run of equal q values: the merged pair for head `p` with the
already-collected later intensities `acc` of its run. -/
def run_close (p : ℚ × ℚ) (acc : List ℚ) : ℚ × ℚ :=
  (p.1, (p.2 + acc.sum) / ((1 + acc.length : ℕ) : ℚ))

/-- Walk a q-sorted pair list, collecting each run of equal q and emitting
the run head paired with the mean intensity of the run. -/
def dedupe_go (p : ℚ × ℚ) (acc : List ℚ) : List (ℚ × ℚ) → List (ℚ × ℚ)
  | [] => [run_close p acc]
  | r :: rest =>
    if r.1 = p.1 then dedupe_go p (acc ++ [r.2]) rest
    else run_close p acc :: dedupe_go r [] rest

/-- Merge runs of equal q in a q-sorted pair list, averaging the intensities
of each run (the `np.unique`-based duplicate merge of
`_regularize_profile`). -/
def dedupe_mean : List (ℚ × ℚ) → List (ℚ × ℚ)
  | [] => []
  | p :: rest => dedupe_go p [] rest

/-- Embedding of `saxsabs.core.calibration._regularize_profile`: validate
shapes, sort by q, merge duplicate q by averaging intensity, and demand at
least `min_points` (unique) points.  The finite mask of the source keeps
every element of the rational model. -/
def regularize_profile (q i : List ℚ) (min_points : ℕ) :
    Except String (List ℚ × List ℚ) :=
  if q.length ≠ i.length then Except.error "q and intensity shape mismatch"
  else
    let pairs := sortPairs (q.zip i)
    if pairs.length < min_points then Except.error "insufficient valid points"
    else
      let ded := dedupe_mean pairs
      if ded.length < min_points then Except.error "insufficient unique q points"
      else Except.ok (ded.map Prod.fst, ded.map Prod.snd)

/-- Embedding of `saxsabs.core.calibration.KFactorEstimationResult`.
`k_std_sq` carries the square of the source's `k_std = np.nanstd(ratios)`
(population variance), see the header comment. -/
structure KFactorEstimationResult where
  k_factor : ℚ
  k_std_sq : ℚ
  q_min_overlap : ℚ
  q_max_overlap : ℚ
  points_total : ℕ
  points_used : ℕ
  ratios_used : List ℚ
deriving Repr, DecidableEq

/-- Embedding of `saxsabs.core.calibration.estimate_k_factor_robust`:
regularize the measured profile, window the (defaulted) reference curve,
restrict to the q-overlap, interpolate the measured profile onto the
reference grid, form positive finite `I_ref / I_meas` ratios, apply
median ± 3·(1.4826·MAD) inlier filtering when the MAD is positive and
enough inliers remain, and return the median with its dispersion.  The
constant `1.4826` of the source is read as the exact rational
`14826/10000`; no claim depends on its value.  The `isfinite` tests of the
source hold identically in the rational model, where the NaN median of an
empty ratio list is represented by 0 — both are rejected by the final
`k_factor` positivity test with the same `ValueError`. -/
def estimate_k_factor_robust (q_meas i_meas_per_cm : List ℚ)
    (q_ref i_ref : Option (List ℚ) := none)
    (q_window : ℚ × ℚ := (0.01, 0.2)) (positive_floor : ℚ := 1/10^9)
    (min_points : ℕ := 3) : Except String KFactorEstimationResult :=
  match regularize_profile q_meas i_meas_per_cm min_points with
  | Except.error e => Except.error e
  | Except.ok (q_m, i_m) =>
    let refs :=
      match q_ref, i_ref with
      | some qr, some ir => (qr, ir)
      | _, _ => (NIST_SRM3600_DATA.map Prod.fst, NIST_SRM3600_DATA.map Prod.snd)
    if refs.1.length ≠ refs.2.length then
      Except.error "reference q/intensity shape mismatch"
    else
      let win := (refs.1.zip refs.2).filter
        (fun p => decide (q_window.1 ≤ p.1 ∧ p.1 ≤ q_window.2))
      if win.length < min_points then
        Except.error "reference points in q window are insufficient"
      else
        match nanmin q_m, nanmin (win.map Prod.fst),
              nanmax q_m, nanmax (win.map Prod.fst) with
        | Except.ok qm_lo, Except.ok qw_lo, Except.ok qm_hi, Except.ok qw_hi =>
          let q_min := max qm_lo qw_lo
          let q_max := min qm_hi qw_hi
          let used := win.filter (fun p => decide (q_min ≤ p.1 ∧ p.1 ≤ q_max))
          if used.length < min_points then
            Except.error "q overlap with reference is insufficient"
          else
            let interped := used.map (fun p => (p, np_interp p.1 q_m i_m))
            let validPairs := interped.filter
              (fun pr => decide (positive_floor < pr.2))
            if validPairs.length < min_points then
              Except.error "measured signal too weak or non-positive in overlap region"
            else
              let ratios := (validPairs.map (fun pr => pr.1.2 / pr.2)).filter
                (fun r => decide (0 < r))
              if ratios.length < min_points then
                Except.error "insufficient valid ratio points for robust K estimation"
              else
                let r_med := np_median ratios
                let r_mad := np_median (ratios.map (fun r => |r - r_med|))
                let r_used :=
                  if 0 < r_mad then
                    let inlier := ratios.filter
                      (fun r => decide (|r - r_med| ≤ 3 * ((14826/10000 : ℚ) * r_mad)))
                    if min_points ≤ inlier.length then inlier else ratios
                  else ratios
                let k_val := np_median r_used
                if k_val ≤ 0 then
                  Except.error "estimated K factor is non-positive"
                else
                  Except.ok
                    { k_factor := k_val, k_std_sq := listVar r_used,
                      q_min_overlap := q_min, q_max_overlap := q_max,
                      points_total := used.length, points_used := r_used.length,
                      ratios_used := r_used }
        | _, _, _, _ =>
          Except.error "zero-size array to reduction operation"

/-! Theorems.  Each claim of the specification is settled by one theorem
below; shared helper lemmas precede them. -/

/-- C1: the spec demands `compute_norm_factor(exp, mon, trans, "rate") = NaN`
for transmission above 1, and the GUI implementation of the very same
function in `SASAbs.py` enforces it (returning NaN with a logged warning),
but the core package function `saxsabs.core.normalization.compute_norm_factor`
omits the check: at exp = 1, mon = 1, trans = 1.5 ("rate") it returns
`1.5 = exp*mon*trans` where the claim (and the GUI twin) give NaN. -/
theorem compute_norm_factor_trans_above_one_eval :
    compute_norm_factor (some (.val 1)) (some (.val 1)) (some (.val (3/2))) "rate"
      = Except.ok (some (3/2))
    ∧ SASAbs_compute_norm_factor (some (.val 1)) (some (.val 1)) (some (.val (3/2))) "rate"
      = Except.ok none := by
  constructor
  · simp only [compute_norm_factor]
    rw [if_neg (by norm_num), if_pos (by decide), if_neg (by norm_num)]
    norm_num
  · simp only [SASAbs_compute_norm_factor]
    rw [if_neg (by norm_num), if_pos (by norm_num)]

/-- C2: normalization determinism.  For finite positive inputs with
0 < trans ≤ 1, rate mode yields `exp*mon*trans` and integrated mode (with a
missing exposure) yields `mon*trans`; a non-positive monitor or
transmission, a non-finite monitor or transmission, a missing monitor or
transmission, or a missing exposure in rate mode, all yield NaN. -/
theorem compute_norm_factor_determinism :
    (∀ ev mv tv : ℚ, 0 < ev → 0 < mv → 0 < tv → tv ≤ 1 →
      compute_norm_factor (some (.val ev)) (some (.val mv)) (some (.val tv)) "rate"
        = Except.ok (some (ev * mv * tv)))
    ∧ (∀ mv tv : ℚ, 0 < mv → 0 < tv → tv ≤ 1 →
      compute_norm_factor none (some (.val mv)) (some (.val tv)) "integrated"
        = Except.ok (some (mv * tv)))
    ∧ (∀ (exp trans : Option PyFloat) (mode : String) (mv : ℚ), mv ≤ 0 →
      compute_norm_factor exp (some (.val mv)) trans mode = Except.ok none)
    ∧ (∀ (exp mon : Option PyFloat) (mode : String) (tv : ℚ), tv ≤ 0 →
      compute_norm_factor exp mon (some (.val tv)) mode = Except.ok none)
    ∧ (∀ (exp mon trans : Option PyFloat) (mode : String),
      mon = none ∨ trans = none →
      compute_norm_factor exp mon trans mode = Except.ok none)
    ∧ (∀ (exp trans : Option PyFloat) (mode : String) (m : PyFloat),
      m = PyFloat.nan ∨ m = PyFloat.inf ∨ m = PyFloat.neginf →
      compute_norm_factor exp (some m) trans mode = Except.ok none)
    ∧ (∀ (exp mon : Option PyFloat) (mode : String) (t : PyFloat),
      t = PyFloat.nan ∨ t = PyFloat.inf ∨ t = PyFloat.neginf →
      compute_norm_factor exp mon (some t) mode = Except.ok none)
    ∧ (∀ mv tv : ℚ, 0 < mv → 0 < tv →
      compute_norm_factor none (some (.val mv)) (some (.val tv)) "rate"
        = Except.ok none) := by
  refine ⟨?_, ?_, ?_, ?_, ?_, ?_, ?_, ?_⟩
  · intro ev mv tv h1 h2 h3 _h4
    simp only [compute_norm_factor]
    rw [if_neg (by push_neg; exact ⟨h2, h3⟩)]
    rw [if_pos (by rfl)]
    rw [if_neg (not_le.2 h1)]
  · intro mv tv h2 h3 _h4
    simp only [compute_norm_factor]
    rw [if_neg (by push_neg; exact ⟨h2, h3⟩)]
    rw [if_neg (by decide), if_pos (by rfl)]
  · intro exp trans mode mv hm
    match trans with
    | none => simp [compute_norm_factor]
    | some (PyFloat.val tv) =>
      simp only [compute_norm_factor]
      rw [if_pos (Or.inl hm)]
    | some PyFloat.nan => simp [compute_norm_factor]
    | some PyFloat.inf => simp [compute_norm_factor]
    | some PyFloat.neginf => simp [compute_norm_factor]
  · intro exp mon mode tv ht
    match mon with
    | none => simp [compute_norm_factor]
    | some (PyFloat.val mv) =>
      simp only [compute_norm_factor]
      rw [if_pos (Or.inr ht)]
    | some PyFloat.nan => simp [compute_norm_factor]
    | some PyFloat.inf => simp [compute_norm_factor]
    | some PyFloat.neginf => simp [compute_norm_factor]
  · rintro exp mon trans mode (rfl | rfl)
    · simp [compute_norm_factor]
    · match mon with
      | none => simp [compute_norm_factor]
      | some m => simp [compute_norm_factor]
  · rintro exp trans mode m (rfl | rfl | rfl) <;>
      match trans with
      | none => simp [compute_norm_factor]
      | some t => cases t <;> simp [compute_norm_factor]
  · rintro exp mon mode t (rfl | rfl | rfl) <;>
      match mon with
      | none => simp [compute_norm_factor]
      | some m => cases m <;> simp [compute_norm_factor]
  · intro mv tv h2 h3
    simp only [compute_norm_factor]
    rw [if_neg (by push_neg; exact ⟨h2, h3⟩)]
    rw [if_pos (by rfl)]

/-- C2 witness: the determinism theorem applied at exp = 2, mon = 100,
trans = 4/5 (rate), at mon = 100, trans = 4/5 (integrated), at a negative
monitor, and at a missing exposure in rate mode. -/
theorem compute_norm_factor_determinism_witness :
    compute_norm_factor (some (.val 2)) (some (.val 100)) (some (.val (4/5))) "rate"
      = Except.ok (some (2 * 100 * (4/5)))
    ∧ compute_norm_factor none (some (.val 100)) (some (.val (4/5))) "integrated"
      = Except.ok (some (100 * (4/5)))
    ∧ compute_norm_factor (some (.val 1)) (some (.val (-1))) (some (.val (4/5))) "rate"
      = Except.ok none
    ∧ compute_norm_factor none (some (.val 100)) (some (.val (4/5))) "rate"
      = Except.ok none :=
  ⟨compute_norm_factor_determinism.1 2 100 (4/5) (by norm_num) (by norm_num)
      (by norm_num) (by norm_num),
   compute_norm_factor_determinism.2.1 100 (4/5) (by norm_num) (by norm_num)
      (by norm_num),
   compute_norm_factor_determinism.2.2.1 (some (.val 1)) (some (.val (4/5))) "rate"
      (-1) (by norm_num),
   compute_norm_factor_determinism.2.2.2.2.2.2.2 100 (4/5) (by norm_num) (by norm_num)⟩

/-- C5 counterexample: an unknown mode does not raise `ValueError` when the
monitor is invalid — `compute_norm_factor(1, -1, 0.5, "bogus")` returns NaN
(the validity checks precede the mode dispatch), refuting "raises ValueError
regardless of the other arguments". -/
theorem compute_norm_factor_unknown_mode_nan_first :
    compute_norm_factor (some (.val 1)) (some (.val (-1))) (some (.val (1/2))) "bogus"
      = Except.ok none := by
  rfl

/-- C5 (amended): for every mode string whose stripped lower-casing is
neither "rate" nor "integrated", `monitor_norm_formula` raises `ValueError`,
and `compute_norm_factor` raises `ValueError` whenever the monitor and
transmission are present, finite and positive (with missing or invalid
monitor/transmission it returns NaN before the mode check). -/
theorem unknown_mode_raises_value_error (mode : String)
    (h1 : py_lower (py_strip mode) ≠ "rate")
    (h2 : py_lower (py_strip mode) ≠ "integrated") :
    monitor_norm_formula mode
      = Except.error ("Unknown I0 normalization mode: " ++ mode)
    ∧ ∀ (exp : Option PyFloat) (mv tv : ℚ), 0 < mv → 0 < tv →
      compute_norm_factor exp (some (.val mv)) (some (.val tv)) mode
        = Except.error ("Unknown I0 normalization mode: " ++ mode) := by
  constructor
  · simp only [monitor_norm_formula]
    rw [if_neg h1, if_neg h2]
  · intro exp mv tv hm ht
    simp only [compute_norm_factor]
    rw [if_neg (by push_neg; exact ⟨hm, ht⟩)]
    rw [if_neg h1, if_neg h2]

/-- C5 witness: the amended theorem applied at mode "bogus" with monitor 2
and transmission 1/2. -/
theorem unknown_mode_raises_value_error_witness :
    monitor_norm_formula "bogus"
      = Except.error ("Unknown I0 normalization mode: " ++ "bogus")
    ∧ compute_norm_factor none (some (.val 2)) (some (.val (1/2))) "bogus"
      = Except.error ("Unknown I0 normalization mode: " ++ "bogus") :=
  ⟨(unknown_mode_raises_value_error "bogus" (by decide) (by decide)).1,
   (unknown_mode_raises_value_error "bogus" (by decide) (by decide)).2 none 2 (1/2)
      (by norm_num) (by norm_num)⟩

/-- C9: run-policy precedence — the mode property resolves
overwrite > resume-skip > always-run, `should_skip_existing` is true exactly
when the output exists, resuming is on and overwriting is off, and an empty
flag list never skips. -/
theorem run_policy_precedence (r o e : Bool) :
    (RunPolicy.mk r o).mode
      = (if o then "overwrite" else if r then "resume-skip" else "always-run")
    ∧ (RunPolicy.mk r o).should_skip_existing e = (e && r && !o)
    ∧ should_skip_all_existing [] (RunPolicy.mk r o) = false := by
  refine ⟨rfl, rfl, rfl⟩

/-- C8 counterexample: at `total_files = 1, failed_files = -1` (an integer
input) the gate clamps the negative count and returns READY with score 0,
whereas the claim demands `score = 5*(-1) + 0 + 0 = -5` and level BLOCKED
for non-zero `failed_files`. -/
theorem preflight_gate_negative_failed_eval :
    (evaluate_preflight_gate 1 (-1) 0 0).level = "READY"
    ∧ (evaluate_preflight_gate 1 (-1) 0 0).score = 0 := by
  constructor <;> rfl

/-- C8 (amended): for all nonnegative integer inputs (negative inputs are
clamped to zero before scoring), the score is
`5*failed + 2*risky + warnings`, a positive failed count forces BLOCKED, and
all-zero failed/warning/risky with a positive total yields READY with
score 0. -/
theorem evaluate_preflight_gate_nonneg_spec (total failed warnings risky : ℤ)
    (h0f : 0 ≤ failed) (h0w : 0 ≤ warnings) (h0r : 0 ≤ risky) :
    (evaluate_preflight_gate total failed warnings risky).score
      = 5 * failed + 2 * risky + warnings
    ∧ (0 < failed →
        (evaluate_preflight_gate total failed warnings risky).level = "BLOCKED")
    ∧ (failed = 0 → warnings = 0 → risky = 0 → 0 < total →
        (evaluate_preflight_gate total failed warnings risky).level = "READY"
        ∧ (evaluate_preflight_gate total failed warnings risky).score = 0) := by
  have hf : max (0:ℤ) failed = failed := max_eq_right h0f
  have hw : max (0:ℤ) warnings = warnings := max_eq_right h0w
  have hr : max (0:ℤ) risky = risky := max_eq_right h0r
  refine ⟨?_, ?_, ?_⟩
  · simp only [evaluate_preflight_gate, hf, hw, hr]
    ring
  · intro h
    simp only [evaluate_preflight_gate, hf]
    rw [if_pos (Or.inr h)]
  · rintro rfl rfl rfl ht
    have htot : max (0:ℤ) total = total := max_eq_right (le_of_lt ht)
    simp only [evaluate_preflight_gate, htot]
    rw [if_neg (by push_neg; exact ⟨ht, le_refl 0⟩)]
    rw [if_neg ?hc]
    · rw [if_neg (by norm_num)]
      exact ⟨rfl, by norm_num⟩
    case hc =>
      push_neg
      refine ⟨by norm_num, by norm_num, ?_⟩
      calc (0:ℤ) < 2 := by norm_num
        _ ≤ max 2 (total / 2) := le_max_left _ _

/-- C8 witness: the amended theorem applied at (10, 3, 1, 2) — score
`5*3 + 2*2 + 1 = 20` and BLOCKED — and at the clean batch (10, 0, 0, 0) —
READY with score 0. -/
theorem evaluate_preflight_gate_nonneg_spec_witness :
    (evaluate_preflight_gate 10 3 1 2).score = 5 * 3 + 2 * 2 + 1
    ∧ (evaluate_preflight_gate 10 3 1 2).level = "BLOCKED"
    ∧ (evaluate_preflight_gate 10 0 0 0).level = "READY"
    ∧ (evaluate_preflight_gate 10 0 0 0).score = 0 :=
  ⟨(evaluate_preflight_gate_nonneg_spec 10 3 1 2 (by norm_num) (by norm_num)
      (by norm_num)).1,
   (evaluate_preflight_gate_nonneg_spec 10 3 1 2 (by norm_num) (by norm_num)
      (by norm_num)).2.1 (by norm_num),
   ((evaluate_preflight_gate_nonneg_spec 10 0 0 0 (by norm_num) (by norm_num)
      (by norm_num)).2.2 rfl rfl rfl (by norm_num)).1,
   ((evaluate_preflight_gate_nonneg_spec 10 0 0 0 (by norm_num) (by norm_num)
      (by norm_num)).2.2 rfl rfl rfl (by norm_num)).2⟩

/-- C4 counterexample: a "%" that appears only in the matched key is not
treated as a percent hint — `normalize_transmission(0.85, raw="0.85",
key="trans%")` returns 0.85 unchanged although the key contains "%", where
the claim demands division by 100 (the hint test checks "%" in the raw text
only, and "percent"/"pct" in the key). -/
theorem normalize_transmission_percent_key_eval :
    normalize_transmission (some (17/20)) (some "0.85") (some "trans%")
        = some (17/20)
    ∧ strContains (norm_key "trans%") "%" = true := by
  constructor
  · simp only [normalize_transmission]
    rw [if_neg (by decide), if_neg (by norm_num)]
  · decide

/-- C4 (amended): division by 100 happens exactly when the raw text contains
"%", "percent" or "pct", or the matched key contains "percent" or "pct"
(a bare "%" in the key is not a hint), and otherwise exactly when
2 < t ≤ 100; in particular values in (1, 2] without such a hint are
returned unchanged. -/
theorem normalize_transmission_policy (t : ℚ) (raw key : String) :
    (has_pct_hint (py_lower (py_strip raw)) (norm_key key) = true →
      normalize_transmission (some t) (some raw) (some key) = some (t / 100))
    ∧ (has_pct_hint (py_lower (py_strip raw)) (norm_key key) = false →
      normalize_transmission (some t) (some raw) (some key)
        = some (if 2 < t ∧ t ≤ 100 then t / 100 else t)) := by
  constructor
  · intro h
    simp only [normalize_transmission]
    rw [if_pos h]
  · intro h
    simp only [normalize_transmission]
    rw [if_neg (by simp [h])]
    by_cases hc : 2 < t ∧ t ≤ 100
    · rw [if_pos hc, if_pos hc]
    · rw [if_neg hc, if_neg hc]

/-- C4 witness: the policy theorem applied at a percent-hinted raw text
("85%"), and at a hint-free drift value 1.5 that stays unchanged. -/
theorem normalize_transmission_policy_witness :
    normalize_transmission (some 85) (some "85%") (some "transmission")
        = some (85 / 100)
    ∧ normalize_transmission (some (3/2)) (some "1.5") (some "trans")
        = some (if 2 < (3/2 : ℚ) ∧ (3/2 : ℚ) ≤ 100 then (3/2 : ℚ) / 100 else (3/2 : ℚ)) :=
  ⟨(normalize_transmission_policy 85 "85%" "transmission").1 (by decide),
   (normalize_transmission_policy (3/2) "1.5" "trans").2 (by decide)⟩

/-- Every pair of a list zipped with itself has equal components. -/
theorem mem_zip_self_eq : ∀ (l : List ℚ), ∀ p ∈ l.zip l, p.1 = p.2 := by
  intro l
  induction l with
  | nil => intro p hp; simp at hp
  | cons x xs ih =>
    intro p hp
    simp only [List.zip_cons_cons] at hp
    rcases List.mem_cons.1 hp with rfl | h
    · rfl
    · exact ih p h

/-- `np.allclose` holds reflexively. -/
theorem np_allclose_self (l : List ℚ) : np_allclose l l = true := by
  unfold np_allclose
  rw [List.all_eq_true]
  intro p hp
  have h := mem_zip_self_eq l p hp
  rw [decide_eq_true_eq, h, sub_self, abs_zero]
  positivity

/-- Elementwise access of a zipped-and-mapped pair of lists. -/
theorem getD_zip_map (f : ℚ → ℚ → ℚ) :
    ∀ (a b : List ℚ) (j : ℕ), j < a.length → j < b.length →
      ((a.zip b).map (fun p => f p.1 p.2)).getD j 0 = f (a.getD j 0) (b.getD j 0) := by
  intro a
  induction a with
  | nil => intro b j hja _; simp at hja
  | cons x xs ih =>
    intro b j hja hjb
    cases b with
    | nil => simp at hjb
    | cons y ys =>
      cases j with
      | zero => simp [List.zip_cons_cons]
      | succ n =>
        simp only [List.zip_cons_cons, List.map_cons, List.getD_cons_succ]
        exact ih ys n (by simpa using hja) (by simpa using hjb)

/-- Filtering a zip on a predicate of the first component keeps as many
elements as filtering the first list, when the second list is long enough. -/
theorem length_filter_zip_fst (pr : ℚ → Bool) :
    ∀ (l1 l2 : List ℚ), l1.length ≤ l2.length →
      ((l1.zip l2).filter (fun p => pr p.1)).length = (l1.filter pr).length := by
  intro l1
  induction l1 with
  | nil => intro l2 _; simp
  | cons x xs ih =>
    intro l2 h
    cases l2 with
    | nil => simp at h
    | cons y ys =>
      simp only [List.zip_cons_cons, List.filter_cons]
      cases hpx : pr x <;>
        simp [hpx, ih ys (by simpa using h)]

/-- C7: buffer subtraction on a shared q-grid subtracts the scaled buffer
elementwise and propagates independent errors in quadrature — the
subtracted intensity is `i_sample - alpha*i_buffer` and the squared
propagated error (the radicand of the source's `err_subtracted`) is
`e_s² + alpha²·e_b²`, elementwise. -/
theorem subtract_buffer_error_propagation
    (q i_s e_s i_b e_b : List ℚ) (alpha : ℚ) (diag : ℚ × ℚ) (j : ℕ)
    (hi_s : i_s.length = q.length) (hi_b : i_b.length = q.length)
    (he_s : e_s.length = q.length) (he_b : e_b.length = q.length)
    (hj : j < q.length) :
    ((subtract_buffer q i_s (some e_s) q i_b (some e_b) alpha diag).i_subtracted).getD j 0
        = i_s.getD j 0 - alpha * i_b.getD j 0
    ∧ ((subtract_buffer q i_s (some e_s) q i_b (some e_b) alpha diag).err_subtracted_sq).getD j 0
        = (e_s.getD j 0) ^ 2 + alpha ^ 2 * (e_b.getD j 0) ^ 2 := by
  have hcond : ¬(q.length ≠ q.length ∨ ¬ (np_allclose q q = true)) := by
    push_neg
    exact ⟨rfl, np_allclose_self q⟩
  constructor
  · simp only [subtract_buffer, Option.getD_some]
    rw [if_neg hcond]
    rw [apply_ite BufferSubtractionResult.i_subtracted]
    simp only [ite_self]
    exact getD_zip_map (fun a b => a - alpha * b) i_s i_b j
      (by rw [hi_s]; exact hj) (by rw [hi_b]; exact hj)
  · simp only [subtract_buffer, Option.getD_some]
    rw [if_neg hcond]
    rw [apply_ite BufferSubtractionResult.err_subtracted_sq]
    simp only [ite_self]
    rw [getD_zip_map (fun a b => a ^ 2 + (alpha * b) ^ 2) e_s e_b j
      (by rw [he_s]; exact hj) (by rw [he_b]; exact hj)]
    ring

/-- C7 witness: the error-propagation theorem applied at index 0 of the
concrete profiles q = [1,2,3], e_s = [3,0,0], e_b = [4,0,0], alpha = 1
(so the propagated squared error is 3² + 4² = 25). -/
theorem subtract_buffer_error_propagation_witness :
    ((subtract_buffer [1,2,3] [10,20,30] (some [3,0,0]) [1,2,3] [1,2,3]
        (some [4,0,0]) 1 (15/100, 25/100)).i_subtracted).getD 0 0
        = (10 : ℚ) - 1 * 1
    ∧ ((subtract_buffer [1,2,3] [10,20,30] (some [3,0,0]) [1,2,3] [1,2,3]
        (some [4,0,0]) 1 (15/100, 25/100)).err_subtracted_sq).getD 0 0
        = (3 : ℚ) ^ 2 + 1 ^ 2 * 4 ^ 2 :=
  ⟨(subtract_buffer_error_propagation [1,2,3] [10,20,30] [3,0,0] [1,2,3] [4,0,0]
      1 (15/100, 25/100) 0 rfl rfl rfl rfl (by norm_num)).1,
   (subtract_buffer_error_propagation [1,2,3] [10,20,30] [3,0,0] [1,2,3] [4,0,0]
      1 (15/100, 25/100) 0 rfl rfl rfl rfl (by norm_num)).2⟩

/-- C10: when fewer than 3 (finite) subtracted-intensity points fall inside
the high-q diagnostic window, the diagnostic defaults to passing:
`high_q_residual_mean = 0` and `high_q_check_passed = true` (the modelled
points are all finite, so the `np.isfinite` conjunct of the source's mask
holds for every element and the count is the window count). -/
theorem subtract_buffer_diag_default (q_s i_s : List ℚ) (e_s : Option (List ℚ))
    (q_b i_b : List ℚ) (e_b : Option (List ℚ)) (alpha qlo qhi : ℚ)
    (hi_s : i_s.length = q_s.length) (hi_b : i_b.length = q_b.length)
    (hcount : (q_s.filter (fun x => decide (qlo ≤ x ∧ x ≤ qhi))).length < 3) :
    (subtract_buffer q_s i_s e_s q_b i_b e_b alpha (qlo, qhi)).high_q_residual_mean = 0
    ∧ (subtract_buffer q_s i_s e_s q_b i_b e_b alpha (qlo, qhi)).high_q_check_passed
        = true := by
  simp only [subtract_buffer]
  by_cases hcond : q_s.length ≠ q_b.length ∨ ¬ (np_allclose q_s q_b = true)
  · rw [if_pos hcond, if_neg ?count1]
    case count1 =>
      intro h3
      simp only [List.length_map] at h3
      rw [length_filter_zip_fst (fun x => decide (qlo ≤ x ∧ x ≤ qhi)) q_s] at h3
      · omega
      · simp only [List.length_zip, List.length_map]
        omega
    exact ⟨rfl, rfl⟩
  · rw [if_neg hcond, if_neg ?count2]
    case count2 =>
      push_neg at hcond
      intro h3
      simp only [List.length_map] at h3
      rw [length_filter_zip_fst (fun x => decide (qlo ≤ x ∧ x ≤ qhi)) q_s] at h3
      · omega
      · simp only [List.length_map, List.length_zip]
        omega
    exact ⟨rfl, rfl⟩

/-- C10 witness: the diagnostic-default theorem at a concrete call whose
window [0.15, 0.25] contains only two of the sample q-points. -/
theorem subtract_buffer_diag_default_witness :
    (subtract_buffer [1/10, 2/10, 22/100] [10,20,30] none [1/10, 2/10, 22/100]
        [1,2,3] none 1 (15/100, 25/100)).high_q_residual_mean = 0
    ∧ (subtract_buffer [1/10, 2/10, 22/100] [10,20,30] none [1/10, 2/10, 22/100]
        [1,2,3] none 1 (15/100, 25/100)).high_q_check_passed = true :=
  subtract_buffer_diag_default [1/10, 2/10, 22/100] [10,20,30] none
    [1/10, 2/10, 22/100] [1,2,3] none 1 (15/100) (25/100) rfl rfl (by norm_num)

/-- A strictly ascending chain dominates every member of its tail. -/
theorem chain_lt_head : ∀ (l : List ℚ) (a : ℚ),
    (a :: l).Chain' (· < ·) → ∀ z ∈ l, a < z := by
  intro l
  induction l with
  | nil => intro a _ z hz; simp at hz
  | cons b t ih =>
    intro a h z hz
    have hab : a < b := (List.chain'_cons.1 h).1
    rcases List.mem_cons.1 hz with rfl | hz2
    · exact hab
    · exact lt_trans hab (ih b (List.chain'_cons.1 h).2 z hz2)

/-- Zipping preserves strict ascent of the key component. -/
theorem chain_fst_zip : ∀ (q i : List ℚ), q.Chain' (· < ·) →
    (q.zip i).Chain' (fun a b : ℚ × ℚ => a.1 < b.1) := by
  intro q
  induction q with
  | nil => intro i _; simp
  | cons x xs ih =>
    intro i h
    cases i with
    | nil => simp
    | cons y ys =>
      rw [List.zip_cons_cons, List.chain'_cons']
      refine ⟨?_, ih ys h.tail⟩
      intro b hb
      cases xs with
      | nil => simp at hb
      | cons x2 xs2 =>
        cases ys with
        | nil => simp at hb
        | cons y2 ys2 =>
          simp only [List.zip_cons_cons, List.head?_cons, Option.mem_def,
            Option.some.injEq] at hb
          rw [← hb]
          exact (List.chain'_cons.1 h).1

/-- Inserting below the head of a key-sorted pair list prepends. -/
theorem sortPairs_eq_self : ∀ l : List (ℚ × ℚ),
    l.Chain' (fun a b => a.1 < b.1) → sortPairs l = l := by
  intro l
  induction l with
  | nil => intro _; rfl
  | cons p rest ih =>
    intro h
    have htail : sortPairs rest = rest := ih h.tail
    show insortP p (sortPairs rest) = p :: rest
    rw [htail]
    cases rest with
    | nil => rfl
    | cons r rs =>
      have hpr : p.1 < r.1 := by
        rcases List.chain'_cons.1 h with ⟨h1, _⟩
        exact h1
      simp only [insortP]
      rw [if_pos (le_of_lt hpr)]

/-- Closing an empty run returns the head pair unchanged. -/
theorem run_close_nil (p : ℚ × ℚ) : run_close p [] = p := by
  simp only [run_close, List.sum_nil, List.length_nil, add_zero, Nat.cast_one,
    div_one, add_zero]

/-- On a strictly key-ascending list the run walker is the identity. -/
theorem dedupe_go_eq_self : ∀ (rest : List (ℚ × ℚ)) (p : ℚ × ℚ),
    (p :: rest).Chain' (fun a b => a.1 < b.1) → dedupe_go p [] rest = p :: rest := by
  intro rest
  induction rest with
  | nil => intro p _; simp [dedupe_go, run_close_nil]
  | cons r rs ih =>
    intro p h
    have hpr : p.1 < r.1 := (List.chain'_cons.1 h).1
    simp only [dedupe_go]
    rw [if_neg (ne_of_gt hpr), run_close_nil]
    rw [ih r (List.chain'_cons.1 h).2]

/-- On a strictly key-ascending list the duplicate merge is the identity. -/
theorem dedupe_mean_eq_self (l : List (ℚ × ℚ))
    (h : l.Chain' (fun a b => a.1 < b.1)) : dedupe_mean l = l := by
  cases l with
  | nil => rfl
  | cons p rest => exact dedupe_go_eq_self rest p h

/-- Regularizing an already strictly ascending profile with enough points is
the identity. -/
theorem regularize_eq_self (q i : List ℚ) (minp : ℕ)
    (hs : q.Chain' (· < ·)) (hl : q.length = i.length) (hm : minp ≤ q.length) :
    regularize_profile q i minp = Except.ok (q, i) := by
  have hzip : (q.zip i).length = q.length := by
    rw [List.length_zip, hl, min_self]
  have hchain := chain_fst_zip q i hs
  simp only [regularize_profile]
  rw [if_neg (by omega)]
  rw [sortPairs_eq_self (q.zip i) hchain]
  rw [if_neg (by omega)]
  rw [dedupe_mean_eq_self (q.zip i) hchain]
  rw [if_neg (by omega)]
  rw [List.map_fst_zip q i (le_of_eq hl), List.map_snd_zip q i (ge_of_eq hl)]

/-- A left fold by `min` is bounded by its initial value. -/
theorem foldl_min_le_init : ∀ (xs : List ℚ) (a : ℚ), xs.foldl min a ≤ a := by
  intro xs
  induction xs with
  | nil => intro a; exact le_refl a
  | cons x t ih =>
    intro a
    exact le_trans (ih (min a x)) (min_le_left a x)

/-- A left fold by `min` is bounded by every member. -/
theorem foldl_min_le_mem : ∀ (xs : List ℚ) (a y : ℚ), y ∈ xs → xs.foldl min a ≤ y := by
  intro xs
  induction xs with
  | nil => intro a y hy; simp at hy
  | cons x t ih =>
    intro a y hy
    rcases List.mem_cons.1 hy with rfl | hy2
    · exact le_trans (foldl_min_le_init t (min a y)) (min_le_right a y)
    · exact ih (min a x) y hy2

/-- A left fold by `max` dominates its initial value. -/
theorem le_foldl_max_init : ∀ (xs : List ℚ) (a : ℚ), a ≤ xs.foldl max a := by
  intro xs
  induction xs with
  | nil => intro a; exact le_refl a
  | cons x t ih =>
    intro a
    exact le_trans (le_max_left a x) (ih (max a x))

/-- A left fold by `max` dominates every member. -/
theorem le_foldl_max_mem : ∀ (xs : List ℚ) (a y : ℚ), y ∈ xs → y ≤ xs.foldl max a := by
  intro xs
  induction xs with
  | nil => intro a y hy; simp at hy
  | cons x t ih =>
    intro a y hy
    rcases List.mem_cons.1 hy with rfl | hy2
    · exact le_trans (le_max_right a y) (le_foldl_max_init t (max a y))
    · exact ih (max a x) y hy2

/-- Interpolation of a strictly ascending grid onto itself reproduces the
data values exactly (`np.interp` is exact at grid nodes). -/
theorem np_interp_self_map : ∀ (xp fp : List ℚ), xp.Chain' (· < ·) →
    xp.length = fp.length → xp.map (fun x => np_interp x xp fp) = fp := by
  intro xp
  induction xp with
  | nil =>
    intro fp _ hl
    cases fp with
    | nil => rfl
    | cons f fs => simp at hl
  | cons x0 xs ih =>
    intro fp h hl
    cases fp with
    | nil => simp at hl
    | cons f0 fs =>
      cases xs with
      | nil =>
        cases fs with
        | nil => simp [np_interp]
        | cons f1 fs2 => simp at hl
      | cons x1 xs2 =>
        cases fs with
        | nil => simp at hl
        | cons f1 fs2 =>
          have hx01 : x0 < x1 := (List.chain'_cons.1 h).1
          have htail : (x1 :: xs2).Chain' (· < ·) := (List.chain'_cons.1 h).2
          have hlen2 : (x1 :: xs2).length = (f1 :: fs2).length := by
            simpa using hl
          rw [List.map_cons]
          have hhead : np_interp x0 (x0 :: x1 :: xs2) (f0 :: f1 :: fs2) = f0 := by
            simp only [np_interp]
            rw [if_pos (le_refl x0)]
          rw [hhead]
          have hrest : (x1 :: xs2).map
              (fun x => np_interp x (x0 :: x1 :: xs2) (f0 :: f1 :: fs2))
              = (x1 :: xs2).map (fun x => np_interp x (x1 :: xs2) (f1 :: fs2)) := by
            apply List.map_congr_left
            intro z hz
            rcases List.mem_cons.1 hz with rfl | hz2
            · have h1 : np_interp z (z :: xs2) (f1 :: fs2) = f1 := by
                cases xs2 with
                | nil => simp [np_interp]
                | cons x2 xs3 =>
                  cases fs2 with
                  | nil => simp at hlen2
                  | cons f2 fs3 =>
                    simp only [np_interp]
                    rw [if_pos (le_refl z)]
              have h2 : np_interp z (x0 :: z :: xs2) (f0 :: f1 :: fs2) = f1 := by
                have hne : z - x0 ≠ 0 := sub_ne_zero.2 (ne_of_gt hx01)
                simp only [np_interp]
                rw [if_neg (not_le.2 hx01), if_pos (le_refl z)]
                rw [mul_div_assoc, div_self hne, mul_one]
                ring
              rw [h1, h2]
            · have hz1 : x1 < z := chain_lt_head xs2 x1 htail z hz2
              have hz0 : x0 < z := lt_trans hx01 hz1
              simp only [np_interp]
              rw [if_neg (not_le.2 hz0), if_neg (not_le.2 hz1)]
          rw [hrest, ih (f1 :: fs2) htail hlen2]

/-- Replicated lists are already sorted for the insertion step. -/
theorem insortQ_replicate (n : ℕ) (a : ℚ) :
    insortQ a (List.replicate n a) = List.replicate (n + 1) a := by
  cases n with
  | zero => rfl
  | succ m =>
    simp only [List.replicate, insortQ]
    rw [if_pos (le_refl a)]

/-- Sorting a replicated list is the identity. -/
theorem sortQ_replicate (n : ℕ) (a : ℚ) :
    sortQ (List.replicate n a) = List.replicate n a := by
  induction n with
  | zero => rfl
  | succ m ih =>
    show insortQ a (sortQ (List.replicate m a)) = _
    rw [ih, insortQ_replicate]

/-- Positional access into a replicated list. -/
theorem getD_replicate_self : ∀ (n j : ℕ) (a : ℚ), j < n →
    (List.replicate n a).getD j 0 = a := by
  intro n
  induction n with
  | zero => intro j a h; omega
  | succ m ih =>
    intro j a h
    cases j with
    | zero => rfl
    | succ k =>
      show (List.replicate m a).getD k 0 = a
      exact ih k a (by omega)

/-- The median of a nonempty constant list is the constant. -/
theorem np_median_replicate (n : ℕ) (hn : 1 ≤ n) (a : ℚ) :
    np_median (List.replicate n a) = a := by
  simp only [np_median, sortQ_replicate, List.length_replicate]
  rw [if_neg (by omega)]
  by_cases hpar : n % 2 = 1
  · rw [if_pos hpar, getD_replicate_self n (n / 2) a (by omega)]
  · rw [if_neg hpar, getD_replicate_self n (n / 2 - 1) a (by omega),
      getD_replicate_self n (n / 2) a (by omega)]
    ring

/-- Tagging each zip pair with a function of its key recovers the second
zip when the function sends the keys to the data list. -/
theorem map_pair_fuse : ∀ (q i : List ℚ) (g h : ℚ → ℚ), q.map h = i →
    (q.zip (i.map g)).map (fun p => (p, h p.1))
      = (q.zip (i.map g)).zip i := by
  intro q
  induction q with
  | nil =>
    intro i g h hmap
    rw [← hmap]
    rfl
  | cons x xs ih =>
    intro i g h hmap
    cases i with
    | nil => simp at hmap
    | cons y ys =>
      rw [List.map_cons] at hmap
      have hy : h x = y := (List.cons.inj hmap).1
      have hys : xs.map h = ys := (List.cons.inj hmap).2
      simp only [List.map_cons, List.zip_cons_cons]
      rw [hy, ih ys g h hys]

/-- Point-wise reference/measured ratios of an exactly scaled profile are
constantly the scale factor. -/
theorem ratio_fuse : ∀ (q i : List ℚ) (K : ℚ), (∀ y ∈ i, 0 < y) →
    (((q.zip (i.map (fun y => K * y))).zip i).map (fun pr => pr.1.2 / pr.2))
      = List.replicate ((q.zip (i.map (fun y => K * y))).length) K := by
  intro q
  induction q with
  | nil => intro i K _; rfl
  | cons x xs ih =>
    intro i K hpos
    cases i with
    | nil => rfl
    | cons y ys =>
      simp only [List.map_cons, List.zip_cons_cons, List.length_cons,
        List.replicate_succ]
      have hy : (0:ℚ) < y := hpos y (List.mem_cons_self y ys)
      rw [mul_div_assoc, div_self (ne_of_gt hy), mul_one]
      rw [ih ys K (fun z hz => hpos z (List.mem_cons_of_mem y hz))]

/-- C3: K-factor exactness on clean synthetic data.  For a measured profile
of at least `min_points` strictly ascending (unique, finite) q-points lying
inside the reference q-window, with all intensities above a nonnegative
`positive_floor`, and a reference that is exactly `K_true` times the
measured profile on the shared grid, the estimator succeeds with
`k_factor = K_true` exactly (hence within any relative tolerance) and
`points_used = points_total` (= the number of grid points). -/
theorem estimate_k_factor_exact_clean
    (q i : List ℚ) (K qlo qhi floor : ℚ) (minp : ℕ)
    (hs : q.Chain' (· < ·)) (hl : q.length = i.length)
    (hm : minp ≤ q.length) (h1 : 1 ≤ minp)
    (hwin : ∀ x ∈ q, qlo ≤ x ∧ x ≤ qhi)
    (hfl : ∀ y ∈ i, floor < y) (hfl0 : 0 ≤ floor) (hK : 0 < K) :
    ∃ r, estimate_k_factor_robust q i (some q) (some (i.map (fun y => K * y)))
          (qlo, qhi) floor minp = Except.ok r
      ∧ r.k_factor = K ∧ r.points_used = r.points_total
      ∧ r.points_total = q.length := by
  have hreg := regularize_eq_self q i minp hs hl hm
  rw [estimate_k_factor_robust.eq_def, hreg]
  rcases q with _ | ⟨q0, qt⟩
  · simp only [List.length_nil] at hm
    omega
  · have hKi : ∀ y ∈ i, 0 < y := fun y hy => lt_of_le_of_lt hfl0 (hfl y hy)
    have hglen : ((q0 :: qt).zip (i.map (fun y => K * y))).length = (q0 :: qt).length := by
      rw [List.length_zip, List.length_map, ← hl, min_self]
    have hfilter_win : List.filter (fun p => decide (qlo ≤ p.1 ∧ p.1 ≤ qhi))
        ((q0 :: qt).zip (i.map (fun y => K * y)))
        = (q0 :: qt).zip (i.map (fun y => K * y)) := by
      rw [List.filter_eq_self]
      rintro ⟨a, b⟩ hp
      rw [decide_eq_true_eq]
      exact hwin a (List.of_mem_zip hp).1
    have hkeys : ((q0 :: qt).zip (i.map (fun y => K * y))).map Prod.fst = q0 :: qt :=
      List.map_fst_zip _ _ (by rw [List.length_map, ← hl])
    have hfuse := map_pair_fuse (q0 :: qt) i (fun y => K * y)
      (fun x => np_interp x (q0 :: qt) i) (np_interp_self_map (q0 :: qt) i hs hl)
    have hfilter_used : List.filter
        (fun p => decide ((qt.foldl min q0) ≤ p.1 ∧ p.1 ≤ (qt.foldl max q0)))
        ((q0 :: qt).zip (i.map (fun y => K * y)))
        = (q0 :: qt).zip (i.map (fun y => K * y)) := by
      rw [List.filter_eq_self]
      rintro ⟨a, b⟩ hp
      rw [decide_eq_true_eq]
      have ha : a ∈ q0 :: qt := (List.of_mem_zip hp).1
      constructor
      · rcases List.mem_cons.1 ha with rfl | ha2
        · exact foldl_min_le_init qt a
        · exact foldl_min_le_mem qt q0 a ha2
      · rcases List.mem_cons.1 ha with rfl | ha2
        · exact le_foldl_max_init qt a
        · exact le_foldl_max_mem qt q0 a ha2
    have hfilter_valid : List.filter (fun pr => decide (floor < pr.2))
        (((q0 :: qt).zip (i.map (fun y => K * y))).zip i)
        = ((q0 :: qt).zip (i.map (fun y => K * y))).zip i := by
      rw [List.filter_eq_self]
      rintro ⟨a, b⟩ hp
      rw [decide_eq_true_eq]
      exact hfl b (List.of_mem_zip hp).2
    have hratio := ratio_fuse (q0 :: qt) i K hKi
    have hfilter_pos : List.filter (fun r => decide (0 < r))
        (List.replicate ((q0 :: qt).length) K)
        = List.replicate ((q0 :: qt).length) K := by
      rw [List.filter_eq_self]
      intro b hb
      rw [decide_eq_true_eq, List.eq_of_mem_replicate hb]
      exact hK
    have hmed : np_median (List.replicate ((q0 :: qt).length) K) = K :=
      np_median_replicate _ (by simp) K
    have hmad : np_median (List.replicate ((q0 :: qt).length) (0:ℚ)) = 0 :=
      np_median_replicate _ (by simp) 0
    simp only [List.length_map, hfilter_win, hkeys, nanmin, nanmax, sup_idem,
      inf_idem, hfuse, hfilter_used, hfilter_valid, hratio, hglen, hfilter_pos,
      hmed, List.map_replicate, sub_self, abs_zero, hmad, lt_self_iff_false,
      if_false]
    rw [if_neg (by omega), if_neg (by omega), if_neg (by omega), if_neg ?h4,
      if_neg (by simp only [List.length_replicate]; omega), if_neg (not_le.2 hK)]
    case h4 =>
      simp only [List.length_zip, hglen]
      omega
    refine ⟨_, rfl, rfl, ?_, rfl⟩
    simp only [List.length_replicate]

/-- C3 witness: the exactness theorem applied to the three-point profile
q = [0.02, 0.1, 0.15], i = [5, 3, 2] inside the default window (0.01, 0.2),
with K_true = 7/2. -/
theorem estimate_k_factor_exact_clean_witness :
    ∃ r, estimate_k_factor_robust [1/50, 1/10, 3/20] [5, 3, 2]
          (some [1/50, 1/10, 3/20])
          (some (([5, 3, 2] : List ℚ).map (fun y => (7:ℚ)/2 * y)))
          (1/100, 1/5) (1/10^9) 3 = Except.ok r
      ∧ r.k_factor = 7/2 ∧ r.points_used = r.points_total
      ∧ r.points_total = ([1/50, 1/10, 3/20] : List ℚ).length :=
  estimate_k_factor_exact_clean [1/50, 1/10, 3/20] [5, 3, 2] (7/2) (1/100) (1/5)
    (1/10^9) 3
    (by norm_num [List.chain'_cons, List.chain'_singleton])
    rfl (by norm_num) (by norm_num)
    (by intro x hx; fin_cases hx <;> norm_num)
    (by intro y hy; fin_cases hy <;> norm_num)
    (by norm_num) (by norm_num)

/-- A fold by `min` starting at a lower bound of the list stays there. -/
theorem foldl_min_sorted_head (q0 : ℚ) (qt : List ℚ) (h : ∀ z ∈ qt, q0 ≤ z) :
    qt.foldl min q0 = q0 := by
  induction qt with
  | nil => rfl
  | cons x t ih =>
    simp only [List.foldl_cons]
    rw [min_eq_left (h x (List.mem_cons_self x t))]
    exact ih (fun z hz => h z (List.mem_cons_of_mem x hz))

/-- C6: insufficient q-overlap raises.  For a measured profile
`q0 :: qt` (strictly ascending) whose q-range `[q0, max q]` contains fewer
than `min_points` of the windowed reference points — in particular whenever
the ranges do not overlap at all — the estimator raises the `ValueError`
whose message mentions "overlap" (the windowed reference points always lie
within their own min/max, so membership in the code's overlap interval
reduces to membership in the measured range). -/
theorem estimate_k_factor_overlap_raises
    (q0 : ℚ) (qt i qr ir : List ℚ) (qlo qhi floor : ℚ) (minp : ℕ)
    (hs : (q0 :: qt).Chain' (· < ·)) (hl : (q0 :: qt).length = i.length)
    (hm : minp ≤ (q0 :: qt).length) (h1 : 1 ≤ minp)
    (hrlen : qr.length = ir.length)
    (hwlen : minp ≤ ((qr.zip ir).filter
        (fun p => decide (qlo ≤ p.1 ∧ p.1 ≤ qhi))).length)
    (hcount : (((qr.zip ir).filter (fun p => decide (qlo ≤ p.1 ∧ p.1 ≤ qhi))).filter
        (fun p => decide (q0 ≤ p.1 ∧ p.1 ≤ qt.foldl max q0))).length < minp) :
    estimate_k_factor_robust (q0 :: qt) i (some qr) (some ir) (qlo, qhi) floor minp
      = Except.error "q overlap with reference is insufficient" := by
  have hreg := regularize_eq_self (q0 :: qt) i minp hs hl hm
  have hq0 : qt.foldl min q0 = q0 :=
    foldl_min_sorted_head q0 qt (fun z hz => le_of_lt (chain_lt_head qt q0 hs z hz))
  rw [estimate_k_factor_robust.eq_def, hreg]
  cases hwE : (qr.zip ir).filter (fun p => decide (qlo ≤ p.1 ∧ p.1 ≤ qhi)) with
  | nil =>
    rw [hwE] at hwlen
    simp only [List.length_nil] at hwlen
    omega
  | cons w0 wt =>
    rw [hwE] at hwlen hcount
    simp only [hwE, nanmin, nanmax, List.map_cons, hq0]
    rw [if_neg (by omega), if_neg (by omega), if_pos ?hcnt]
    case hcnt =>
      have hmono : (List.filter (fun p =>
          decide (q0 ⊔ (List.foldl min w0.1 (List.map Prod.fst wt)) ≤ p.1
            ∧ p.1 ≤ (List.foldl max q0 qt) ⊓ (List.foldl max w0.1 (List.map Prod.fst wt))))
          (w0 :: wt)).length
          ≤ (List.filter (fun p => decide (q0 ≤ p.1 ∧ p.1 ≤ qt.foldl max q0))
            (w0 :: wt)).length := by
        simp only [← List.countP_eq_length_filter]
        apply List.countP_mono_left
        intro p _ hp
        rw [decide_eq_true_eq] at hp ⊢
        exact ⟨le_trans (le_max_left _ _) hp.1, le_trans hp.2 (min_le_left _ _)⟩
      omega

/-- C6 witness: the overlap theorem applied to a measured grid [1, 2, 3]
whose range lies entirely below the windowed reference points
[10, 11, 12]. -/
theorem estimate_k_factor_overlap_raises_witness :
    estimate_k_factor_robust [1, 2, 3] [5, 3, 2] (some [10, 11, 12])
        (some [1, 1, 1]) (0, 100) (1/10^9) 3
      = Except.error "q overlap with reference is insufficient" :=
  estimate_k_factor_overlap_raises 1 [2, 3] [5, 3, 2] [10, 11, 12] [1, 1, 1]
    0 100 (1/10^9) 3 (by norm_num [List.chain'_cons, List.chain'_singleton])
    rfl (by decide) (by decide) rfl (by decide) (by decide)
